import Mathlib

/-!
A shallow embedding of the one-ssh dispatcher, `ossh/dispatcher.go`.

The dispatcher (`OsshDisaptcher`) is the only component with control flow of
its own.  Its two methods are embedded here:

* `Validate` is a pure function of the configuration.
* `Run` is a single task that launches workers (`go sshConnect`, `go sshRun`),
  receives from one channel and prints.  The workers live in a file that is not
  part of the embedding, so the channel is an input: the list of messages the
  dispatcher receives, in order, together with what a receive does once the
  list is exhausted (the channel was closed, or the dispatcher keeps waiting).
  What the dispatcher does to the outside world is recorded as a trace of
  actions: the two kinds of `go` statement, the receives, and the calls of
  `message.println()` (whose body, in `message.go`, formats and writes one
  line and plays no part in the control flow).

Go `int` values that can be negative (`Par`, `messageType`, `running`,
`failureCount`) are `Int`; the cursor `hostIdx`, which only counts up from
zero to `len(d.Hosts)`, is `Nat`.  No counter leaves the range
`0 .. len(d.Hosts)`, so machine overflow plays no role.
-/

namespace Ossh

/-! ## message.go -/

def STDOUT : Int := 1
def STDERR : Int := 2
def ERROR : Int := 4
def CLOSE : Int := 8
def VERBOSE : Int := 16

/-- The host record as far as the dispatcher reads it: the label, the
recorded-error slot `err` (`none` is Go `nil`) and the colour flag.  The slot
holds the value the dispatcher sees when it reads it. -/
structure OsshHost where
  label : String
  err : Option String
  useColor : Bool
  deriving DecidableEq, Repr

/-- The Go struct `OsshMessage`; the pointer `host` is the index of the host
in `d.Hosts`. -/
structure OsshMessage where
  data : String
  messageType : Int
  host : Nat
  deriving DecidableEq, Repr

/-- Test `(message.messageType & ERROR) != 0`. -/
def OsshMessage.hasError (m : OsshMessage) : Bool := Int.land m.messageType ERROR != 0

/-- Test `(message.messageType & CLOSE) != 0`. -/
def OsshMessage.hasClose (m : OsshMessage) : Bool := Int.land m.messageType CLOSE != 0

/-- Test `(message.messageType & VERBOSE) != 0`. -/
def OsshMessage.hasVerbose (m : OsshMessage) : Bool := Int.land m.messageType VERBOSE != 0

/-! ## dispatcher.go -/

/-- The Go struct `OsshDisaptcher` (the SSH client configuration is passed
through to the workers untouched and is left out). -/
structure OsshDisaptcher where
  Par : Int
  Command : String
  Hosts : List OsshHost
  Preconnect : Bool
  IgnoreFailures : Bool
  deriving Repr

/-- The call `strings.Join(errList, "\n")`. -/
def joinLines (errList : List String) : String := String.intercalate "\n" errList

/-- The method `OsshDisaptcher.Validate`: `none` is a `nil` error, `some e` an error whose
text is `e`. -/
def OsshDisaptcher.Validate (d : OsshDisaptcher) : Option String :=
  let errList : List String := []
  let errList := if d.Par < 1 then errList ++ ["parallelism should be > 0"] else errList
  let errList := if d.Command.utf8ByteSize == 0 then errList ++ ["no command is specified"] else errList
  let errList := if d.Hosts.length == 0 then errList ++ ["host list is empty"] else errList
  if errList.length > 0 then some (joinLines errList) else none

/-- What the dispatcher does to the outside world, in program order. -/
inductive Act where
  /-- The statement `go (&d.Hosts[host]).sshConnect(c, d.SSHClientConfig)`. -/
  | connect (host : Nat)
  /-- The statement `go (&d.Hosts[host]).sshRun(c, d.SSHClientConfig, command)`. -/
  | run (host : Nat) (command : String)
  /-- A receive `message, ok := <-c` that delivered `m` (`ok` is true). -/
  | recv (m : OsshMessage)
  /-- The call `message.println()`. -/
  | print (m : OsshMessage)
  deriving DecidableEq, Repr

/-- The channel `c` as the dispatcher sees it: the messages it receives, in
order, and what a receive does once they are used up: `closed = true` is a
closed channel (`ok` is false), `closed = false` a channel that stays open
with no sender ready, on which the dispatcher waits for ever. -/
structure Chan where
  msgs : List OsshMessage
  closed : Bool
  deriving Repr

/-- How a call of `Run` ends: it returns (`none` is `nil`), or it waits on a
receive that never completes. -/
inductive Outcome where
  | returned (err : Option String)
  | blocked
  deriving DecidableEq, Repr

/-- The cursor and the outstanding-worker counter of the run phase. -/
structure Slot where
  hostIdx : Nat
  running : Int
  deriving DecidableEq, Repr

/-- A stretch of the run phase: where the cursor and the counter stand after
it, and what was done during it. -/
structure Phase where
  hostIdx : Nat
  running : Int
  acts : List Act
  deriving DecidableEq, Repr

/-- The end of a call of `Run`: the outcome, the last values of `hostIdx` and
`running`, everything that was done, and the values of the cursor and the
counter after the initial fill and after each message received by the run
loop (empty when the run phase was not reached). -/
structure Result where
  outcome : Outcome
  hostIdx : Nat
  running : Int
  trace : List Act
  history : List Slot
  deriving DecidableEq, Repr

/-- How the preconnect receive loop was left. -/
inductive Exit where
  /-- The loop counter reached `len(d.Hosts)`. -/
  | done
  /-- A receive found the channel closed (`!ok`). -/
  | closed
  /-- A receive never completed. -/
  | blocked
  deriving DecidableEq, Repr

/-- The end of the preconnect receive loop. -/
structure Pre where
  exit : Exit
  hostIdx : Nat
  failureCount : Int
  acts : List Act
  rest : List OsshMessage
  deriving DecidableEq, Repr

/-- Lines 43-45: one `go sshConnect` per host, in list order. -/
def spawnConnect (d : OsshDisaptcher) : List Act :=
  (List.range d.Hosts.length).map Act.connect

/-- Lines 46-57: the loop `for hostIdx = 0; hostIdx < len(d.Hosts); hostIdx++`
with one receive per iteration. -/
def preconnectLoop (d : OsshDisaptcher) (closed : Bool) :
    List OsshMessage → Nat → Int → Pre
  | [], hostIdx, failureCount =>
    if hostIdx < d.Hosts.length then
      if closed then ⟨Exit.closed, hostIdx, failureCount, [], []⟩
      else ⟨Exit.blocked, hostIdx, failureCount, [], []⟩
    else ⟨Exit.done, hostIdx, failureCount, [], []⟩
  | m :: rest, hostIdx, failureCount =>
    if hostIdx < d.Hosts.length then
      if m.hasError then
        let p := preconnectLoop d closed rest (hostIdx + 1) (failureCount + 1)
        { p with acts := Act.recv m :: Act.print m :: p.acts }
      else if m.hasVerbose then
        let p := preconnectLoop d closed rest (hostIdx + 1) failureCount
        { p with acts := Act.recv m :: Act.print m :: p.acts }
      else
        let p := preconnectLoop d closed rest (hostIdx + 1) failureCount
        { p with acts := Act.recv m :: p.acts }
    else ⟨Exit.done, hostIdx, failureCount, [], m :: rest⟩

/-- Lines 63-69: the initial fill.  The first argument is the part of
`d.Hosts` from `hostIdx` on. -/
def initialFill (d : OsshDisaptcher) : List OsshHost → Nat → Int → Phase
  | [], hostIdx, running => ⟨hostIdx, running, []⟩
  | h :: rest, hostIdx, running =>
    if running < d.Par then
      if h.err.isSome then initialFill d rest (hostIdx + 1) running
      else
        let p := initialFill d rest (hostIdx + 1) (running + 1)
        { p with acts := Act.run hostIdx d.Command :: p.acts }
    else ⟨hostIdx, running, []⟩

/-- Lines 84-88: the refill after a terminal message. -/
def refill (d : OsshDisaptcher) (hostIdx : Nat) (running : Int) : Phase :=
  if hostIdx < d.Hosts.length then
    ⟨hostIdx + 1, running + 1, [Act.run hostIdx d.Command]⟩
  else ⟨hostIdx, running, []⟩

/-- Lines 75-88: one iteration of the run loop on the received message `m`. -/
def runStep (d : OsshDisaptcher) (m : OsshMessage) (hostIdx : Nat) (running : Int) : Phase :=
  if m.hasError then
    let p := refill d hostIdx (running - 1)
    { p with acts := Act.recv m :: Act.print m :: p.acts }
  else if m.hasClose then
    let p := refill d hostIdx (running - 1)
    { p with acts := Act.recv m :: p.acts }
  else ⟨hostIdx, running, [Act.recv m, Act.print m]⟩

/-- Lines 70-90: the loop `for running > 0` and the `return nil` after it. -/
def runLoop (d : OsshDisaptcher) (closed : Bool) : List OsshMessage → Nat → Int → Result
  | [], hostIdx, running =>
    if running > 0 then
      if closed then ⟨Outcome.returned none, hostIdx, running, [], []⟩
      else ⟨Outcome.blocked, hostIdx, running, [], []⟩
    else ⟨Outcome.returned none, hostIdx, running, [], []⟩
  | m :: rest, hostIdx, running =>
    if running > 0 then
      let p := runStep d m hostIdx running
      let r := runLoop d closed rest p.hostIdx p.running
      { r with trace := p.acts ++ r.trace, history := ⟨p.hostIdx, p.running⟩ :: r.history }
    else ⟨Outcome.returned none, hostIdx, running, [], []⟩

/-- Lines 62-90: the run phase, the initial fill followed by the run loop. -/
def runPhase (d : OsshDisaptcher) (ch : Chan) : Result :=
  let f := initialFill d d.Hosts 0 0
  let r := runLoop d ch.closed ch.msgs f.hostIdx f.running
  { r with trace := f.acts ++ r.trace, history := ⟨f.hostIdx, f.running⟩ :: r.history }

/-- Lines 42-58: the preconnect phase when `d.Preconnect` is set, nothing
otherwise. -/
def preconnectPhase (d : OsshDisaptcher) (ch : Chan) : Pre :=
  if d.Preconnect then
    let p := preconnectLoop d ch.closed ch.msgs 0 0
    { p with acts := spawnConnect d ++ p.acts }
  else ⟨Exit.done, 0, 0, [], ch.msgs⟩

/-- The method `OsshDisaptcher.Run`: the preconnect phase, the failure check of
line 59, and the run phase. -/
def OsshDisaptcher.Run (d : OsshDisaptcher) (ch : Chan) : Result :=
  let p := preconnectPhase d ch
  match p.exit with
  | Exit.closed =>
    ⟨Outcome.returned (some "channel got closed unexpectedly, exiting"), p.hostIdx, 0, p.acts, []⟩
  | Exit.blocked => ⟨Outcome.blocked, p.hostIdx, 0, p.acts, []⟩
  | Exit.done =>
    if !d.IgnoreFailures && p.failureCount > 0 then
      ⟨Outcome.returned (some ("failed to connect to " ++ toString p.failureCount ++ " hosts, exiting")),
        p.hostIdx, 0, p.acts, []⟩
    else
      let r := runPhase d ⟨p.rest, ch.closed⟩
      { r with trace := p.acts ++ r.trace }

/-- The host indices of the `go sshRun` statements of a trace, in order. -/
def launched : List Act → List Nat
  | [] => []
  | Act.run i _ :: rest => i :: launched rest
  | _ :: rest => launched rest

/-- The messages received in a trace, in order. -/
def received : List Act → List OsshMessage
  | [] => []
  | Act.recv m :: rest => m :: received rest
  | _ :: rest => received rest

/-- The messages printed in a trace, in order. -/
def printed : List Act → List OsshMessage
  | [] => []
  | Act.print m :: rest => m :: printed rest
  | _ :: rest => printed rest

/-- A terminal message for the run loop: `ERROR` or `CLOSE` is set. -/
def OsshMessage.terminal (m : OsshMessage) : Bool := m.hasError || m.hasClose

/-- A host with its recorded-error slot unset. -/
def hA : OsshHost := ⟨"A", none, false⟩

/-- A second host with its slot unset. -/
def hB : OsshHost := ⟨"B", none, false⟩

/-- A third host with its slot unset. -/
def hC : OsshHost := ⟨"C", none, false⟩

/-- Host B with an error recorded in its slot. -/
def hBfail : OsshHost := ⟨"B", some "dial failed", false⟩

/-- A `CLOSE` message of host `i`. -/
def mClose (i : Nat) : OsshMessage := ⟨"", CLOSE, i⟩

/-- An `ERROR` message of host `i`. -/
def mErr (i : Nat) : OsshMessage := ⟨"", ERROR, i⟩

/-- A `VERBOSE` message of host `i`. -/
def mVerb (i : Nat) : OsshMessage := ⟨"connected", VERBOSE, i⟩

/-- A `STDOUT` line of host `i`. -/
def mOut (i : Nat) : OsshMessage := ⟨"hello", STDOUT, i⟩

/-- The part of a trace before its first `go sshRun` statement. -/
def beforeFirstRun : List Act → List Act
  | [] => []
  | Act.run _ _ :: _ => []
  | a :: rest => a :: beforeFirstRun rest

/-- The number of terminal messages in a list. -/
def terminals (msgs : List OsshMessage) : Nat := msgs.countP OsshMessage.terminal

/-- The messages left for the run phase: with `Preconnect` set those after
the first `len(d.Hosts)`, which the preconnect loop receives, otherwise all. -/
def runMessages (d : OsshDisaptcher) (ch : Chan) : List OsshMessage :=
  if d.Preconnect then ch.msgs.drop d.Hosts.length else ch.msgs

/-- The number of workers a run phase launches when it runs to its end: those
of the initial fill, and one for every host from where the fill stopped. -/
def sessions (d : OsshDisaptcher) : Nat :=
  (launched (initialFill d d.Hosts 0 0).acts).length +
    (d.Hosts.length - (initialFill d d.Hosts 0 0).hostIdx)

/-- The violated conditions in the words of the specification: parallelism,
then command, then host list. -/
def violations (d : OsshDisaptcher) : List String :=
  (if d.Par < 1 then ["parallelism should be > 0"] else []) ++
  (if d.Command = "" then ["no command is specified"] else []) ++
  (if d.Hosts = [] then ["host list is empty"] else [])

/-! ### Sample runs -/

/-- Three reachable hosts, two at a time, no preconnect. -/
def threeHosts : OsshDisaptcher := ⟨2, "uptime", [hA, hB, hC], false, false⟩

/-- Host B fails, A prints a line and closes, C closes; the channel stays open. -/
def threeHostsChan : Chan := ⟨[mErr 1, mOut 0, mClose 0, mClose 2], false⟩

/-- Hosts A and B with B's slot set, preconnect with failures ignored, two at
a time. -/
def ignoring : OsshDisaptcher := ⟨2, "uptime", [hA, hBfail], true, true⟩

/-- Both probes end, B's with an error; then A's session closes. -/
def ignoringChan : Chan := ⟨[mClose 0, mErr 1, mClose 0], false⟩

/-- The same two hosts, one at a time. -/
def ignoringSerial : OsshDisaptcher := ⟨1, "uptime", [hA, hBfail], true, true⟩

/-- Both probes end, then A's session closes and B's session fails. -/
def ignoringSerialChan : Chan := ⟨[mClose 0, mErr 1, mClose 0, mErr 1], false⟩

/-- Hosts A and B with preconnect and failures not ignored. -/
def strict : OsshDisaptcher := ⟨2, "uptime", [hA, hBfail], true, false⟩

/-- Both probes end, B's with an error. -/
def strictChan : Chan := ⟨[mClose 0, mErr 1], false⟩

/-- One probe ends, then the channel is closed. -/
def cutChan : Chan := ⟨[mClose 0], true⟩

/-- One host with preconnect. -/
def oneHostPre : OsshDisaptcher := ⟨1, "uptime", [hA], true, false⟩

/-- A single `VERBOSE` message, after which the channel stays open. -/
def verboseChan : Chan := ⟨[mVerb 0], false⟩

/-- One host without preconnect. -/
def oneHost : OsshDisaptcher := ⟨1, "uptime", [hA], false, false⟩

/-- A channel closed from the start. -/
def closedChan : Chan := ⟨[], true⟩

/-- A channel with no message that stays open. -/
def silentChan : Chan := ⟨[], false⟩

/-- A dispatcher that violates all three validation conditions. -/
def invalidAll : OsshDisaptcher := ⟨0, "", [], false, false⟩

/-- A dispatcher that violates the parallelism condition only. -/
def invalidPar : OsshDisaptcher := ⟨0, "uptime", [hA], false, false⟩

/-- A dispatcher that violates the command condition only. -/
def invalidCommand : OsshDisaptcher := ⟨1, "", [hA], false, false⟩

/-! ## Lemmas -/

theorem utf8ByteSize_go_pos (cs : List Char) (c : Char) :
    0 < String.utf8ByteSize.go (c :: cs) := by
  have h := Char.utf8Size_pos c
  simp only [String.utf8ByteSize.go]
  omega

theorem utf8ByteSize_eq_zero (s : String) : s.utf8ByteSize = 0 ↔ s = "" := by
  constructor
  · intro h
    cases s with
    | mk cs =>
      cases cs with
      | nil => rfl
      | cons c cs =>
        have := utf8ByteSize_go_pos cs c
        simp only [String.utf8ByteSize] at h
        omega
  · intro h
    subst h
    rfl

theorem launched_append (a b : List Act) : launched (a ++ b) = launched a ++ launched b := by
  induction a with
  | nil => rfl
  | cons x xs ih => cases x <;> simp [launched, ih]

theorem received_append (a b : List Act) : received (a ++ b) = received a ++ received b := by
  induction a with
  | nil => rfl
  | cons x xs ih => cases x <;> simp [received, ih]

theorem printed_append (a b : List Act) : printed (a ++ b) = printed a ++ printed b := by
  induction a with
  | nil => rfl
  | cons x xs ih => cases x <;> simp [printed, ih]

theorem spawnConnect_launched (d : OsshDisaptcher) : launched (spawnConnect d) = [] := by
  unfold spawnConnect
  induction (List.range d.Hosts.length) with
  | nil => rfl
  | cons x xs ih => simpa [launched] using ih

theorem spawnConnect_received (d : OsshDisaptcher) : received (spawnConnect d) = [] := by
  unfold spawnConnect
  induction (List.range d.Hosts.length) with
  | nil => rfl
  | cons x xs ih => simpa [received] using ih

theorem spawnConnect_printed (d : OsshDisaptcher) : printed (spawnConnect d) = [] := by
  unfold spawnConnect
  induction (List.range d.Hosts.length) with
  | nil => rfl
  | cons x xs ih => simpa [printed] using ih

/-! ### The initial fill -/

theorem initialFill_hostIdx_ge (d : OsshDisaptcher) (hs : List OsshHost) :
    ∀ k r, k ≤ (initialFill d hs k r).hostIdx := by
  induction hs with
  | nil => intro k r; simp [initialFill]
  | cons h rest ih =>
    intro k r
    simp only [initialFill]
    split_ifs
    · have := ih (k + 1) r; omega
    · have := ih (k + 1) (r + 1); simp only; omega
    · simp

theorem initialFill_hostIdx_le (d : OsshDisaptcher) (hs : List OsshHost) :
    ∀ k r, (initialFill d hs k r).hostIdx ≤ k + hs.length := by
  induction hs with
  | nil => intro k r; simp [initialFill]
  | cons h rest ih =>
    intro k r
    simp only [initialFill, List.length_cons]
    split_ifs
    · have := ih (k + 1) r; omega
    · have := ih (k + 1) (r + 1); simp only; omega
    · simp

theorem initialFill_running_ge (d : OsshDisaptcher) (hs : List OsshHost) :
    ∀ k r, r ≤ (initialFill d hs k r).running := by
  induction hs with
  | nil => intro k r; simp [initialFill]
  | cons h rest ih =>
    intro k r
    simp only [initialFill]
    split_ifs
    · exact ih (k + 1) r
    · have := ih (k + 1) (r + 1); simp only; omega
    · simp

theorem initialFill_running_le (d : OsshDisaptcher) (hs : List OsshHost) :
    ∀ k r, r ≤ d.Par → (initialFill d hs k r).running ≤ d.Par := by
  induction hs with
  | nil => intro k r hr; simpa [initialFill] using hr
  | cons h rest ih =>
    intro k r hr
    simp only [initialFill]
    split_ifs with h1 h2
    · exact ih (k + 1) r hr
    · exact ih (k + 1) (r + 1) (by omega)
    · simpa using hr

/-- The fill stops at the end of the host list or with the counter at the
limit. -/
theorem initialFill_stop (d : OsshDisaptcher) (hs : List OsshHost) :
    ∀ k r, (initialFill d hs k r).hostIdx = k + hs.length ∨
      d.Par ≤ (initialFill d hs k r).running := by
  induction hs with
  | nil => intro k r; simp [initialFill]
  | cons h rest ih =>
    intro k r
    simp only [initialFill, List.length_cons]
    split_ifs with h1 h2
    · rcases ih (k + 1) r with h | h
      · left; omega
      · right; exact h
    · rcases ih (k + 1) (r + 1) with h | h
      · left; simp only; omega
      · right; exact h
    · right; simp only; omega

theorem initialFill_received (d : OsshDisaptcher) (hs : List OsshHost) :
    ∀ k r, received (initialFill d hs k r).acts = [] ∧ printed (initialFill d hs k r).acts = [] := by
  induction hs with
  | nil => intro k r; simp [initialFill, received, printed]
  | cons h rest ih =>
    intro k r
    simp only [initialFill]
    split_ifs
    · exact ih (k + 1) r
    · simpa [received, printed] using ih (k + 1) (r + 1)
    · simp [received, printed]

/-- The counter after the fill is the counter before it plus the number of
workers the fill launched. -/
theorem initialFill_running_eq (d : OsshDisaptcher) (hs : List OsshHost) :
    ∀ k r, (initialFill d hs k r).running = r + (launched (initialFill d hs k r).acts).length := by
  induction hs with
  | nil => intro k r; simp [initialFill, launched]
  | cons h rest ih =>
    intro k r
    simp only [initialFill]
    split_ifs
    · exact ih (k + 1) r
    · have := ih (k + 1) (r + 1)
      simp only [launched, List.length_cons, Nat.cast_add, Nat.cast_one]
      omega
    · simp [launched]

/-- Which indices the fill launches: those it walked over whose slot is
unset. -/
theorem initialFill_mem_launched (d : OsshDisaptcher) (hs : List OsshHost) :
    ∀ k r i, i ∈ launched (initialFill d hs k r).acts ↔
      (k ≤ i ∧ i < (initialFill d hs k r).hostIdx ∧
        ∃ h, hs[i - k]? = some h ∧ h.err = none) := by
  induction hs with
  | nil => intro k r i; simp [initialFill, launched]
  | cons h rest ih =>
    intro k r i
    simp only [initialFill]
    split_ifs with h1 h2
    · rw [ih (k + 1) r i]
      constructor
      · rintro ⟨a, b, h', c, e⟩
        refine ⟨by omega, b, h', ?_, e⟩
        have : i - k = (i - (k + 1)) + 1 := by omega
        rw [this, List.getElem?_cons_succ]; exact c
      · rintro ⟨a, b, h', c, e⟩
        rcases Nat.eq_or_lt_of_le a with hk | hk
        · subst hk
          simp only [Nat.sub_self, List.getElem?_cons_zero, Option.some.injEq] at c
          subst c
          simp [e] at h2
        · refine ⟨hk, b, h', ?_, e⟩
          have : i - k = (i - (k + 1)) + 1 := by omega
          rw [this, List.getElem?_cons_succ] at c; exact c
    · simp only [launched, List.mem_cons]
      rw [ih (k + 1) (r + 1) i]
      have hge := initialFill_hostIdx_ge d rest (k + 1) (r + 1)
      constructor
      · rintro (hk | ⟨a, b, h', c, e⟩)
        · subst hk
          refine ⟨le_refl _, by omega, h, by simp, ?_⟩
          cases he : h.err with
          | none => rfl
          | some x => simp [he] at h2
        · refine ⟨by omega, b, h', ?_, e⟩
          have : i - k = (i - (k + 1)) + 1 := by omega
          rw [this, List.getElem?_cons_succ]; exact c
      · rintro ⟨a, b, h', c, e⟩
        rcases Nat.eq_or_lt_of_le a with hk | hk
        · left; exact hk.symm
        · right
          refine ⟨hk, b, h', ?_, e⟩
          have : i - k = (i - (k + 1)) + 1 := by omega
          rw [this, List.getElem?_cons_succ] at c; exact c
    · simp only [launched, List.not_mem_nil, false_iff, not_and]
      intro a b
      omega

theorem initialFill_launched_pairwise (d : OsshDisaptcher) (hs : List OsshHost) :
    ∀ k r, List.Pairwise (· < ·) (launched (initialFill d hs k r).acts) := by
  induction hs with
  | nil => intro k r; simp [initialFill, launched]
  | cons h rest ih =>
    intro k r
    simp only [initialFill]
    split_ifs with h1 h2
    · exact ih (k + 1) r
    · simp only [launched, List.pairwise_cons]
      refine ⟨?_, ih (k + 1) (r + 1)⟩
      intro i hi
      have := (initialFill_mem_launched d rest (k + 1) (r + 1) i).1 hi
      omega
    · simp [launched]

/-! ### One iteration of the run loop -/

theorem refill_hostIdx (d : OsshDisaptcher) (k : Nat) (r : Int) :
    (refill d k r).hostIdx = if k < d.Hosts.length then k + 1 else k := by
  unfold refill; split_ifs <;> rfl

theorem refill_running (d : OsshDisaptcher) (k : Nat) (r : Int) :
    (refill d k r).running = if k < d.Hosts.length then r + 1 else r := by
  unfold refill; split_ifs <;> rfl

theorem refill_acts (d : OsshDisaptcher) (k : Nat) (r : Int) :
    (refill d k r).acts = if k < d.Hosts.length then [Act.run k d.Command] else [] := by
  unfold refill; split_ifs <;> rfl

theorem runStep_hostIdx (d : OsshDisaptcher) (m : OsshMessage) (k : Nat) (r : Int) :
    (runStep d m k r).hostIdx = if m.terminal ∧ k < d.Hosts.length then k + 1 else k := by
  unfold runStep OsshMessage.terminal
  by_cases h1 : m.hasError <;> by_cases h2 : m.hasClose <;> by_cases h3 : k < d.Hosts.length <;>
    simp [h1, h2, h3, refill_hostIdx]

theorem runStep_running (d : OsshDisaptcher) (m : OsshMessage) (k : Nat) (r : Int) :
    (runStep d m k r).running =
      if m.terminal then (if k < d.Hosts.length then r else r - 1) else r := by
  unfold runStep OsshMessage.terminal
  by_cases h1 : m.hasError <;> by_cases h2 : m.hasClose <;> by_cases h3 : k < d.Hosts.length <;>
    simp [h1, h2, h3, refill_running]

theorem runStep_launched (d : OsshDisaptcher) (m : OsshMessage) (k : Nat) (r : Int) :
    launched (runStep d m k r).acts = if m.terminal ∧ k < d.Hosts.length then [k] else [] := by
  unfold runStep OsshMessage.terminal
  by_cases h1 : m.hasError <;> by_cases h2 : m.hasClose <;> by_cases h3 : k < d.Hosts.length <;>
    simp [h1, h2, h3, refill_acts, launched]

theorem runStep_received (d : OsshDisaptcher) (m : OsshMessage) (k : Nat) (r : Int) :
    received (runStep d m k r).acts = [m] := by
  unfold runStep
  by_cases h1 : m.hasError <;> by_cases h2 : m.hasClose <;> by_cases h3 : k < d.Hosts.length <;>
    simp [h1, h2, h3, refill_acts, received]

theorem runStep_printed (d : OsshDisaptcher) (m : OsshMessage) (k : Nat) (r : Int) :
    printed (runStep d m k r).acts = if m.hasError || !m.hasClose then [m] else [] := by
  unfold runStep
  by_cases h1 : m.hasError <;> by_cases h2 : m.hasClose <;> by_cases h3 : k < d.Hosts.length <;>
    simp [h1, h2, h3, refill_acts, printed]

/-! ### The run loop -/

/-- The run loop never returns an error. -/
theorem runLoop_outcome (d : OsshDisaptcher) (closed : Bool) (msgs : List OsshMessage) :
    ∀ k r, (runLoop d closed msgs k r).outcome = Outcome.returned none ∨
      ((runLoop d closed msgs k r).outcome = Outcome.blocked ∧ closed = false) := by
  induction msgs with
  | nil =>
    intro k r
    simp only [runLoop]
    split_ifs with h1 h2
    · left; rfl
    · right; exact ⟨rfl, by simpa using h2⟩
    · left; rfl
  | cons m rest ih =>
    intro k r
    simp only [runLoop]
    split_ifs
    · exact ih _ _
    · left; rfl

/-- A run loop that waits has workers outstanding. -/
theorem runLoop_blocked_running (d : OsshDisaptcher) (closed : Bool) (msgs : List OsshMessage) :
    ∀ k r, (runLoop d closed msgs k r).outcome = Outcome.blocked →
      0 < (runLoop d closed msgs k r).running := by
  induction msgs with
  | nil =>
    intro k r
    simp only [runLoop]
    split_ifs with h1 h2 <;> simp
    exact h1
  | cons m rest ih =>
    intro k r
    simp only [runLoop]
    split_ifs
    · exact ih _ _
    · simp

/-- The counter stays between zero and any bound it starts under. -/
theorem runLoop_running_bounds (d : OsshDisaptcher) (closed : Bool) (msgs : List OsshMessage)
    (M : Int) : ∀ k r, 0 ≤ r → r ≤ M →
      (0 ≤ (runLoop d closed msgs k r).running ∧ (runLoop d closed msgs k r).running ≤ M) ∧
      ∀ s ∈ (runLoop d closed msgs k r).history, 0 ≤ s.running ∧ s.running ≤ M := by
  induction msgs with
  | nil =>
    intro k r h0 hM
    simp only [runLoop]
    split_ifs <;> simp [h0, hM]
  | cons m rest ih =>
    intro k r h0 hM
    simp only [runLoop]
    split_ifs with h1
    · have hr := runStep_running d m k r
      have hb : 0 ≤ (runStep d m k r).running ∧ (runStep d m k r).running ≤ M := by
        rw [hr]; split_ifs <;> omega
      obtain ⟨hfin, hhist⟩ := ih (runStep d m k r).hostIdx (runStep d m k r).running hb.1 hb.2
      refine ⟨hfin, ?_⟩
      intro s hs
      simp only [List.mem_cons] at hs
      rcases hs with hs | hs
      · subst hs; exact hb
      · exact hhist s hs
    · simp [h0, hM]

/-- The cursor never moves back and never passes the end of the host list. -/
theorem runLoop_hostIdx_bounds (d : OsshDisaptcher) (closed : Bool) (msgs : List OsshMessage) :
    ∀ k r, k ≤ d.Hosts.length →
      (k ≤ (runLoop d closed msgs k r).hostIdx ∧
        (runLoop d closed msgs k r).hostIdx ≤ d.Hosts.length) ∧
      List.Chain (fun a b => a.hostIdx ≤ b.hostIdx) ⟨k, r⟩ (runLoop d closed msgs k r).history := by
  induction msgs with
  | nil =>
    intro k r hk
    simp only [runLoop]
    split_ifs <;> simp [hk]
  | cons m rest ih =>
    intro k r hk
    simp only [runLoop]
    split_ifs with h1
    · have hh := runStep_hostIdx d m k r
      have hb : k ≤ (runStep d m k r).hostIdx ∧ (runStep d m k r).hostIdx ≤ d.Hosts.length := by
        rw [hh]; split_ifs with h2 <;> omega
      obtain ⟨hfin, hch⟩ := ih (runStep d m k r).hostIdx (runStep d m k r).running hb.2
      refine ⟨⟨by simp only; omega, hfin.2⟩, ?_⟩
      simp only [List.chain_cons]
      exact ⟨hb.1, hch⟩
    · simp [hk]

/-- The run loop launches the hosts from the cursor on, one after the other,
up to where the cursor stands in the end. -/
theorem runLoop_launched (d : OsshDisaptcher) (closed : Bool) (msgs : List OsshMessage) :
    ∀ k r, k ≤ d.Hosts.length →
      launched (runLoop d closed msgs k r).trace =
        List.range' k ((runLoop d closed msgs k r).hostIdx - k) := by
  induction msgs with
  | nil =>
    intro k r hk
    simp only [runLoop]
    split_ifs <;> simp [launched]
  | cons m rest ih =>
    intro k r hk
    simp only [runLoop]
    split_ifs with h1
    · simp only [launched_append]
      have hh := runStep_hostIdx d m k r
      have hl := runStep_launched d m k r
      by_cases h2 : m.terminal ∧ k < d.Hosts.length
      · rw [if_pos h2] at hh hl
        have hge := (runLoop_hostIdx_bounds d closed rest (k + 1) (runStep d m k r).running
          (by omega)).1.1
        rw [hl, hh, ih (k + 1) _ (by omega)]
        have : (runLoop d closed rest (k + 1) (runStep d m k r).running).hostIdx - k
            = ((runLoop d closed rest (k + 1) (runStep d m k r).running).hostIdx - (k + 1)) + 1 := by
          omega
        rw [this, List.range'_succ]
        rfl
      · rw [if_neg h2] at hh hl
        rw [hl, hh, ih k _ hk]
        rfl
    · simp [launched]

/-- When the counter ends at zero the cursor is at the end of the host list,
provided the loop did not start with the counter at zero and hosts left. -/
theorem runLoop_done_hostIdx (d : OsshDisaptcher) (closed : Bool) (msgs : List OsshMessage) :
    ∀ k r, k ≤ d.Hosts.length → 0 ≤ r → (r = 0 → k = d.Hosts.length) →
      (runLoop d closed msgs k r).running = 0 →
      (runLoop d closed msgs k r).hostIdx = d.Hosts.length := by
  induction msgs with
  | nil =>
    intro k r hk h0 hz
    simp only [runLoop]
    split_ifs <;> simp only <;> intro h <;> exact hz h
  | cons m rest ih =>
    intro k r hk h0 hz
    simp only [runLoop]
    split_ifs with h1
    · have hh := runStep_hostIdx d m k r
      have hr := runStep_running d m k r
      simp only
      apply ih
      · rw [hh]; split_ifs with h2 <;> omega
      · rw [hr]; split_ifs <;> omega
      · rw [hr, hh]
        intro hz2
        split_ifs at hz2 with h2 h3
        · omega
        · have : ¬(m.terminal = true ∧ k < d.Hosts.length) := fun h => h3 h.2
          rw [if_neg this]; omega
        · omega
    · simp only
      intro h; exact hz h

/-- What the run loop receives and prints. -/
theorem runLoop_received_printed (d : OsshDisaptcher) (closed : Bool) (msgs : List OsshMessage) :
    ∀ k r, received (runLoop d closed msgs k r).trace <+: msgs ∧
      printed (runLoop d closed msgs k r).trace =
        (received (runLoop d closed msgs k r).trace).filter (fun m => m.hasError || !m.hasClose) ∧
      (runLoop d closed msgs k r).history.length =
        (received (runLoop d closed msgs k r).trace).length := by
  induction msgs with
  | nil =>
    intro k r
    simp only [runLoop]
    split_ifs <;> simp [received, printed]
  | cons m rest ih =>
    intro k r
    simp only [runLoop]
    split_ifs with h1
    · obtain ⟨ih1, ih2, ih3⟩ := ih (runStep d m k r).hostIdx (runStep d m k r).running
      simp only [received_append, printed_append, runStep_received, runStep_printed,
        List.singleton_append, List.length_cons]
      refine ⟨?_, ?_, by omega⟩
      · exact (List.prefix_cons_inj m).2 ih1
      · rw [ih2, List.filter_cons]
        split_ifs <;> simp
    · simp [received, printed]

/-- With enough terminal messages the run loop comes to its end and returns
`nil` with the counter at zero. -/
theorem runLoop_completes (d : OsshDisaptcher) (closed : Bool) (msgs : List OsshMessage) :
    ∀ (k : Nat) (r : Int), 0 ≤ r → ((d.Hosts.length - k : Nat) : Int) + r ≤ (terminals msgs : Int) →
      (runLoop d closed msgs k r).outcome = Outcome.returned none ∧
      (runLoop d closed msgs k r).running = 0 := by
  induction msgs with
  | nil =>
    intro k r h0 hle
    simp only [terminals, List.countP_nil, Nat.cast_zero] at hle
    simp only [runLoop]
    split_ifs <;> simp only [true_and] <;> omega
  | cons m rest ih =>
    intro k r h0 hle
    simp only [runLoop]
    split_ifs with h1
    · simp only
      have hh := runStep_hostIdx d m k r
      have hr := runStep_running d m k r
      apply ih
      · rw [hr]; split_ifs <;> omega
      · rw [hr, hh]
        simp only [terminals, List.countP_cons] at hle
        simp only [terminals]
        by_cases h2 : m.terminal = true
        · simp only [h2, if_true, Nat.cast_add, Nat.cast_one, true_and] at hle ⊢
          split_ifs with h3
          · omega
          · omega
        · simp only [h2, if_false, Nat.add_zero, false_and] at hle ⊢
          simp only [Bool.false_eq_true, if_false]
          exact hle
    · simp only [true_and]; omega

/-! ### The preconnect loop -/

/-- The preconnect loop launches no run-phase worker. -/
theorem preconnectLoop_launched (d : OsshDisaptcher) (closed : Bool) (msgs : List OsshMessage) :
    ∀ k fc, launched (preconnectLoop d closed msgs k fc).acts = [] := by
  induction msgs with
  | nil =>
    intro k fc
    simp only [preconnectLoop]
    split_ifs <;> rfl
  | cons m rest ih =>
    intro k fc
    simp only [preconnectLoop]
    split_ifs
    · simpa [launched] using ih (k + 1) (fc + 1)
    · simpa [launched] using ih (k + 1) fc
    · simpa [launched] using ih (k + 1) fc
    · rfl

/-- How the preconnect loop is left: its receives are as many as there are
hosts still to count, if the channel has that many messages. -/
theorem preconnectLoop_exit (d : OsshDisaptcher) (closed : Bool) (msgs : List OsshMessage) :
    ∀ k fc, (preconnectLoop d closed msgs k fc).exit =
      if d.Hosts.length - k ≤ msgs.length then Exit.done
      else if closed then Exit.closed else Exit.blocked := by
  induction msgs with
  | nil =>
    intro k fc
    simp only [preconnectLoop, List.length_nil]
    split_ifs <;> first | rfl | omega
  | cons m rest ih =>
    intro k fc
    simp only [preconnectLoop, List.length_cons]
    by_cases h1 : k < d.Hosts.length
    · have hc : (d.Hosts.length - (k + 1) ≤ rest.length) ↔
          (d.Hosts.length - k ≤ rest.length + 1) := by omega
      by_cases h2 : m.hasError = true <;> by_cases h3 : m.hasVerbose = true <;>
        simp only [h1, h2, h3, if_true, if_false, ih, hc] <;> rfl
    · have hc : d.Hosts.length - k ≤ rest.length + 1 := by omega
      simp only [h1, if_false, hc, if_true]

/-- The preconnect loop receives the first messages of the channel, one per
iteration, whatever their kinds. -/
theorem preconnectLoop_received (d : OsshDisaptcher) (closed : Bool) (msgs : List OsshMessage) :
    ∀ k fc, received (preconnectLoop d closed msgs k fc).acts = msgs.take (d.Hosts.length - k) := by
  induction msgs with
  | nil =>
    intro k fc
    simp only [preconnectLoop]
    split_ifs <;> simp [received]
  | cons m rest ih =>
    intro k fc
    have hs : k < d.Hosts.length → d.Hosts.length - k = (d.Hosts.length - (k + 1)) + 1 := by
      intro h; omega
    simp only [preconnectLoop]
    split_ifs with h1 h2 h3
    · simp only [received, ih]; rw [hs h1, List.take_succ_cons]
    · simp only [received, ih]; rw [hs h1, List.take_succ_cons]
    · simp only [received, ih]; rw [hs h1, List.take_succ_cons]
    · have : d.Hosts.length - k = 0 := by omega
      simp [received, this]

/-- The preconnect loop prints the messages with `ERROR` or `VERBOSE` set. -/
theorem preconnectLoop_printed (d : OsshDisaptcher) (closed : Bool) (msgs : List OsshMessage) :
    ∀ k fc, printed (preconnectLoop d closed msgs k fc).acts =
      (msgs.take (d.Hosts.length - k)).filter (fun m => m.hasError || m.hasVerbose) := by
  induction msgs with
  | nil =>
    intro k fc
    simp only [preconnectLoop]
    split_ifs <;> simp [printed]
  | cons m rest ih =>
    intro k fc
    have hs : k < d.Hosts.length → d.Hosts.length - k = (d.Hosts.length - (k + 1)) + 1 := by
      intro h; omega
    simp only [preconnectLoop]
    split_ifs with h1 h2 h3
    · simp only [printed, ih]; rw [hs h1, List.take_succ_cons]; simp [h2]
    · simp only [printed, ih]; rw [hs h1, List.take_succ_cons]; simp [h2, h3]
    · simp only [printed, ih]; rw [hs h1, List.take_succ_cons]; simp [h2, h3]
    · have : d.Hosts.length - k = 0 := by omega
      simp [printed, this]

/-- The failure count is the number of received messages with `ERROR` set. -/
theorem preconnectLoop_failureCount (d : OsshDisaptcher) (closed : Bool)
    (msgs : List OsshMessage) :
    ∀ k fc, (preconnectLoop d closed msgs k fc).failureCount =
      fc + ((msgs.take (d.Hosts.length - k)).countP OsshMessage.hasError : Nat) := by
  induction msgs with
  | nil =>
    intro k fc
    simp only [preconnectLoop]
    split_ifs <;> simp
  | cons m rest ih =>
    intro k fc
    have hs : k < d.Hosts.length → d.Hosts.length - k = (d.Hosts.length - (k + 1)) + 1 := by
      intro h; omega
    simp only [preconnectLoop]
    split_ifs with h1 h2 h3
    · simp only [ih]; rw [hs h1, List.take_succ_cons, List.countP_cons]
      simp only [h2, if_true]; push_cast; omega
    · simp only [ih]; rw [hs h1, List.take_succ_cons, List.countP_cons]
      simp [h2]
    · simp only [ih]; rw [hs h1, List.take_succ_cons, List.countP_cons]
      simp [h2]
    · have : d.Hosts.length - k = 0 := by omega
      simp [this]

/-- What the preconnect loop leaves on the channel. -/
theorem preconnectLoop_rest (d : OsshDisaptcher) (closed : Bool) (msgs : List OsshMessage) :
    ∀ k fc, (preconnectLoop d closed msgs k fc).rest = msgs.drop (d.Hosts.length - k) := by
  induction msgs with
  | nil =>
    intro k fc
    simp only [preconnectLoop]
    split_ifs <;> simp
  | cons m rest ih =>
    intro k fc
    have hs : k < d.Hosts.length → d.Hosts.length - k = (d.Hosts.length - (k + 1)) + 1 := by
      intro h; omega
    simp only [preconnectLoop]
    split_ifs with h1 h2 h3
    · simp only [ih]; rw [hs h1, List.drop_succ_cons]
    · simp only [ih]; rw [hs h1, List.drop_succ_cons]
    · simp only [ih]; rw [hs h1, List.drop_succ_cons]
    · have : d.Hosts.length - k = 0 := by omega
      simp [this]

theorem preconnectLoop_hostIdx (d : OsshDisaptcher) (closed : Bool) (msgs : List OsshMessage) :
    ∀ k fc, k ≤ d.Hosts.length → (preconnectLoop d closed msgs k fc).hostIdx ≤ d.Hosts.length := by
  induction msgs with
  | nil =>
    intro k fc hk
    simp only [preconnectLoop]
    split_ifs <;> exact hk
  | cons m rest ih =>
    intro k fc hk
    simp only [preconnectLoop]
    split_ifs with h1
    · exact ih (k + 1) _ h1
    · exact ih (k + 1) _ h1
    · exact ih (k + 1) _ h1
    · exact hk

/-! ### The two phases together -/

theorem preconnectPhase_hostIdx (d : OsshDisaptcher) (ch : Chan) :
    (preconnectPhase d ch).hostIdx ≤ d.Hosts.length := by
  unfold preconnectPhase
  split_ifs
  · exact preconnectLoop_hostIdx d ch.closed ch.msgs 0 0 (Nat.zero_le _)
  · exact Nat.zero_le _

theorem preconnectPhase_launched (d : OsshDisaptcher) (ch : Chan) :
    launched (preconnectPhase d ch).acts = [] := by
  unfold preconnectPhase
  split_ifs
  · simp [launched_append, spawnConnect_launched, preconnectLoop_launched]
  · rfl

theorem preconnectPhase_failureCount_nonneg (d : OsshDisaptcher) (ch : Chan) :
    0 ≤ (preconnectPhase d ch).failureCount := by
  unfold preconnectPhase
  split_ifs
  · simp only [preconnectLoop_failureCount]; omega
  · simp

/-- Either `Run` ends before the run phase, with an error or waiting, having
launched nothing; or it is the run phase on what the preconnect phase left on
the channel, and the failure check let it through. -/
theorem Run_cases (d : OsshDisaptcher) (ch : Chan) :
    (d.Preconnect = true ∧ (d.Run ch).history = [] ∧ launched (d.Run ch).trace = [] ∧
      (d.Run ch).running = 0 ∧ (d.Run ch).hostIdx = (preconnectPhase d ch).hostIdx ∧
      (((preconnectPhase d ch).exit = Exit.closed ∧ (d.Run ch).outcome =
          Outcome.returned (some "channel got closed unexpectedly, exiting")) ∨
        ((preconnectPhase d ch).exit = Exit.blocked ∧ (d.Run ch).outcome = Outcome.blocked) ∨
        ((preconnectPhase d ch).exit = Exit.done ∧ d.IgnoreFailures = false ∧
          0 < (preconnectPhase d ch).failureCount ∧
          (d.Run ch).outcome = Outcome.returned (some ("failed to connect to " ++
            toString (preconnectPhase d ch).failureCount ++ " hosts, exiting"))))) ∨
    ((preconnectPhase d ch).exit = Exit.done ∧
      (d.IgnoreFailures = true ∨ (preconnectPhase d ch).failureCount = 0) ∧
      (d.Run ch).outcome = (runPhase d ⟨(preconnectPhase d ch).rest, ch.closed⟩).outcome ∧
      (d.Run ch).hostIdx = (runPhase d ⟨(preconnectPhase d ch).rest, ch.closed⟩).hostIdx ∧
      (d.Run ch).running = (runPhase d ⟨(preconnectPhase d ch).rest, ch.closed⟩).running ∧
      (d.Run ch).history = (runPhase d ⟨(preconnectPhase d ch).rest, ch.closed⟩).history ∧
      (d.Run ch).trace = (preconnectPhase d ch).acts ++
        (runPhase d ⟨(preconnectPhase d ch).rest, ch.closed⟩).trace) := by
  have hl := preconnectPhase_launched d ch
  have hf := preconnectPhase_failureCount_nonneg d ch
  have hp : d.Preconnect = false → (preconnectPhase d ch).exit = Exit.done ∧
      (preconnectPhase d ch).failureCount = 0 := by
    intro h; simp [preconnectPhase, h]
  cases he : (preconnectPhase d ch).exit with
  | closed =>
    left
    simp only [OsshDisaptcher.Run, he]
    refine ⟨?_, trivial, hl, trivial, trivial, Or.inl ⟨trivial, trivial⟩⟩
    cases hpc : d.Preconnect with
    | true => rfl
    | false => have := (hp hpc).1; rw [he] at this; cases this
  | blocked =>
    left
    simp only [OsshDisaptcher.Run, he]
    refine ⟨?_, trivial, hl, trivial, trivial, Or.inr (Or.inl ⟨trivial, trivial⟩)⟩
    cases hpc : d.Preconnect with
    | true => rfl
    | false => have := (hp hpc).1; rw [he] at this; cases this
  | done =>
    by_cases h1 : (!d.IgnoreFailures && decide ((preconnectPhase d ch).failureCount > 0)) = true
    · left
      simp only [OsshDisaptcher.Run, he, h1, if_true]
      have h2 : d.IgnoreFailures = false ∧ 0 < (preconnectPhase d ch).failureCount := by
        simpa using h1
      refine ⟨?_, trivial, hl, trivial, trivial, Or.inr (Or.inr ⟨trivial, h2.1, h2.2, trivial⟩)⟩
      cases hpc : d.Preconnect with
      | true => rfl
      | false =>
        have := (hp hpc).2
        omega
    · right
      simp only [OsshDisaptcher.Run, he, h1, Bool.false_eq_true, if_false, and_true, true_and]
      cases hi : d.IgnoreFailures with
      | true => left; rfl
      | false =>
        right
        simp [hi] at h1
        omega

theorem runPhase_hostIdx_bounds (d : OsshDisaptcher) (ch : Chan) :
    (initialFill d d.Hosts 0 0).hostIdx ≤ (runPhase d ch).hostIdx ∧
      (runPhase d ch).hostIdx ≤ d.Hosts.length := by
  have h1 := initialFill_hostIdx_le d d.Hosts 0 0
  have := (runLoop_hostIdx_bounds d ch.closed ch.msgs (initialFill d d.Hosts 0 0).hostIdx
    (initialFill d d.Hosts 0 0).running (by omega)).1
  exact this

/-- The indices the run phase launches: those the fill walked over whose slot
is unset, and every index from where the fill stopped up to the final
cursor. -/
theorem runPhase_mem_launched (d : OsshDisaptcher) (ch : Chan) (i : Nat) :
    i ∈ launched (runPhase d ch).trace ↔
      (i < (initialFill d d.Hosts 0 0).hostIdx ∧ ∃ h, d.Hosts[i]? = some h ∧ h.err = none) ∨
      ((initialFill d d.Hosts 0 0).hostIdx ≤ i ∧ i < (runPhase d ch).hostIdx) := by
  have h1 := initialFill_hostIdx_le d d.Hosts 0 0
  have hb := runPhase_hostIdx_bounds d ch
  have hl := runLoop_launched d ch.closed ch.msgs (initialFill d d.Hosts 0 0).hostIdx
    (initialFill d d.Hosts 0 0).running (by omega)
  have hm := initialFill_mem_launched d d.Hosts 0 0 i
  simp only [Nat.sub_zero, Nat.zero_le, true_and] at hm
  unfold runPhase at hb ⊢
  simp only [launched_append, List.mem_append, hm, hl, List.mem_range'_1] at hb ⊢
  constructor
  · rintro (h | h)
    · left; exact h
    · right; omega
  · rintro (h | h)
    · left; exact h
    · right; omega

/-- The run phase launches in strictly ascending index. -/
theorem runPhase_launched_pairwise (d : OsshDisaptcher) (ch : Chan) :
    List.Pairwise (· < ·) (launched (runPhase d ch).trace) := by
  have h1 := initialFill_hostIdx_le d d.Hosts 0 0
  have hl := runLoop_launched d ch.closed ch.msgs (initialFill d d.Hosts 0 0).hostIdx
    (initialFill d d.Hosts 0 0).running (by omega)
  unfold runPhase
  simp only [launched_append, hl, List.pairwise_append]
  refine ⟨initialFill_launched_pairwise d d.Hosts 0 0, ?_, ?_⟩
  · exact List.pairwise_lt_range' _ _
  · intro a ha b hb
    have := (initialFill_mem_launched d d.Hosts 0 0 a).1 ha
    simp only [List.mem_range'_1] at hb
    omega

theorem beforeFirstRun_append (a : List Act) (i : Nat) (c : String) (b : List Act)
    (h : launched a = []) : beforeFirstRun (a ++ Act.run i c :: b) = a := by
  induction a with
  | nil => rfl
  | cons x xs ih =>
    cases x with
    | run j c2 => simp [launched] at h
    | connect j => simp only [launched] at h; simp [beforeFirstRun, ih h]
    | recv m => simp only [launched] at h; simp [beforeFirstRun, ih h]
    | print m => simp only [launched] at h; simp [beforeFirstRun, ih h]

/-- The fill does nothing but launch. -/
theorem initialFill_acts_head (d : OsshDisaptcher) (hs : List OsshHost) :
    ∀ k r, (initialFill d hs k r).acts = [] ∨
      ∃ i c b, (initialFill d hs k r).acts = Act.run i c :: b := by
  induction hs with
  | nil => intro k r; left; rfl
  | cons h rest ih =>
    intro k r
    simp only [initialFill]
    split_ifs
    · exact ih _ _
    · right; exact ⟨k, d.Command, _, rfl⟩
    · left; rfl

theorem runLoop_zero (d : OsshDisaptcher) (closed : Bool) (msgs : List OsshMessage) (k : Nat) :
    (runLoop d closed msgs k 0).trace = [] := by
  cases msgs <;> simp [runLoop]

/-- The counter is the number of workers launched less the number of terminal
messages received. -/
theorem runLoop_running_eq (d : OsshDisaptcher) (closed : Bool) (msgs : List OsshMessage) :
    ∀ k r, (runLoop d closed msgs k r).running =
      r + (launched (runLoop d closed msgs k r).trace).length -
        terminals (received (runLoop d closed msgs k r).trace) := by
  induction msgs with
  | nil =>
    intro k r
    simp only [runLoop]
    split_ifs <;> simp [launched, received, terminals]
  | cons m rest ih =>
    intro k r
    simp only [runLoop]
    split_ifs with h1
    · simp only [launched_append, received_append, runStep_received, runStep_launched,
        List.length_append, terminals, List.countP_append, List.countP_cons, List.countP_nil,
        Nat.cast_add]
      have := ih (runStep d m k r).hostIdx (runStep d m k r).running
      simp only [terminals] at this
      rw [this, runStep_running]
      by_cases h2 : m.terminal = true <;> by_cases h3 : k < d.Hosts.length <;>
        simp [h2, h3] <;> omega
    · simp [launched, received, terminals]

theorem Run_of_not_preconnect (d : OsshDisaptcher) (ch : Chan) (h : d.Preconnect = false) :
    d.Run ch = runPhase d ch := by
  cases ch with
  | mk msgs closed => simp [OsshDisaptcher.Run, preconnectPhase, h]

theorem runPhase_outcome (d : OsshDisaptcher) (ch : Chan) :
    (runPhase d ch).outcome = Outcome.returned none ∨
      ((runPhase d ch).outcome = Outcome.blocked ∧ ch.closed = false ∧
        0 < (runPhase d ch).running) := by
  have h := runLoop_outcome d ch.closed ch.msgs (initialFill d d.Hosts 0 0).hostIdx
    (initialFill d d.Hosts 0 0).running
  have hb := runLoop_blocked_running d ch.closed ch.msgs (initialFill d d.Hosts 0 0).hostIdx
    (initialFill d d.Hosts 0 0).running
  unfold runPhase
  rcases h with h | ⟨h, hc⟩
  · left; exact h
  · right; exact ⟨h, hc, hb h⟩

theorem runPhase_running_bounds (d : OsshDisaptcher) (ch : Chan) (hPar : 0 ≤ d.Par) :
    (0 ≤ (runPhase d ch).running ∧ (runPhase d ch).running ≤ d.Par) ∧
      ∀ s ∈ (runPhase d ch).history, 0 ≤ s.running ∧ s.running ≤ d.Par := by
  have h0 := initialFill_running_ge d d.Hosts 0 0
  have h1 := initialFill_running_le d d.Hosts 0 0 hPar
  obtain ⟨hfin, hhist⟩ := runLoop_running_bounds d ch.closed ch.msgs d.Par
    (initialFill d d.Hosts 0 0).hostIdx (initialFill d d.Hosts 0 0).running h0 h1
  unfold runPhase
  refine ⟨hfin, ?_⟩
  intro s hs
  simp only [List.mem_cons] at hs
  rcases hs with hs | hs
  · subst hs; exact ⟨h0, h1⟩
  · exact hhist s hs

/-- A run phase whose counter ends at zero has its cursor at the end of the
host list. -/
theorem runPhase_done_hostIdx (d : OsshDisaptcher) (ch : Chan) (hPar : 1 ≤ d.Par)
    (hz : (runPhase d ch).running = 0) : (runPhase d ch).hostIdx = d.Hosts.length := by
  have h0 := initialFill_running_ge d d.Hosts 0 0
  have h1 := initialFill_hostIdx_le d d.Hosts 0 0
  have hs := initialFill_stop d d.Hosts 0 0
  unfold runPhase at hz ⊢
  apply runLoop_done_hostIdx d ch.closed ch.msgs _ _ (by omega) h0 _ hz
  intro hr
  rcases hs with hs | hs
  · omega
  · omega

/-- The preconnect phase when `Preconnect` is set: how it is left, what it
counts, leaves, receives and prints. -/
theorem preconnectPhase_of_preconnect (d : OsshDisaptcher) (ch : Chan)
    (h : d.Preconnect = true) :
    (preconnectPhase d ch).exit =
      (if d.Hosts.length ≤ ch.msgs.length then Exit.done
        else if ch.closed then Exit.closed else Exit.blocked) ∧
    (preconnectPhase d ch).failureCount =
      (((ch.msgs.take d.Hosts.length).countP OsshMessage.hasError : Nat) : Int) ∧
    (preconnectPhase d ch).rest = ch.msgs.drop d.Hosts.length ∧
    received (preconnectPhase d ch).acts = ch.msgs.take d.Hosts.length ∧
    printed (preconnectPhase d ch).acts =
      (ch.msgs.take d.Hosts.length).filter (fun m => m.hasError || m.hasVerbose) := by
  have h1 := preconnectLoop_exit d ch.closed ch.msgs 0 0
  have h2 := preconnectLoop_failureCount d ch.closed ch.msgs 0 0
  have h3 := preconnectLoop_rest d ch.closed ch.msgs 0 0
  have h4 := preconnectLoop_received d ch.closed ch.msgs 0 0
  have h5 := preconnectLoop_printed d ch.closed ch.msgs 0 0
  simp only [Nat.sub_zero, zero_add] at h1 h2 h3 h4 h5
  simp only [preconnectPhase, h, if_true, received_append, printed_append,
    spawnConnect_received, spawnConnect_printed, List.nil_append]
  exact ⟨h1, h2, h3, h4, h5⟩

/-- With the limit below one the fill launches nothing. -/
theorem initialFill_of_Par_lt_one (d : OsshDisaptcher) (hs : List OsshHost) (k : Nat) (r : Int)
    (hPar : d.Par < 1) (hr : 0 ≤ r) : initialFill d hs k r = ⟨k, r, []⟩ := by
  cases hs with
  | nil => rfl
  | cons h rest =>
    have : ¬ r < d.Par := by omega
    simp [initialFill, this]

theorem runLoop_zero_outcome (d : OsshDisaptcher) (closed : Bool) (msgs : List OsshMessage)
    (k : Nat) : (runLoop d closed msgs k 0).outcome = Outcome.returned none := by
  cases msgs <;> simp [runLoop]

/-- With no host `Run` returns `nil` at once. -/
theorem Run_of_no_hosts (d : OsshDisaptcher) (ch : Chan) (h : d.Hosts = []) :
    (d.Run ch).outcome = Outcome.returned none ∧ (d.Run ch).trace = [] := by
  have hp : (preconnectPhase d ch).exit = Exit.done ∧ (preconnectPhase d ch).failureCount = 0 ∧
      (preconnectPhase d ch).acts = [] := by
    unfold preconnectPhase
    split_ifs
    · cases hm : ch.msgs <;> simp [preconnectLoop, spawnConnect, h]
    · simp
  have hf : initialFill d d.Hosts 0 0 = ⟨0, 0, []⟩ := by rw [h]; rfl
  simp only [OsshDisaptcher.Run, hp.1, hp.2.1, hp.2.2, runPhase, hf, runLoop_zero,
    runLoop_zero_outcome]
  simp

/-- A run loop that ends with workers outstanding has received every
message of the channel. -/
theorem runLoop_running_pos_received (d : OsshDisaptcher) (closed : Bool)
    (msgs : List OsshMessage) :
    ∀ k r, 0 < (runLoop d closed msgs k r).running →
      received (runLoop d closed msgs k r).trace = msgs := by
  induction msgs with
  | nil =>
    intro k r
    simp only [runLoop]
    split_ifs <;> simp [received]
  | cons m rest ih =>
    intro k r
    simp only [runLoop]
    split_ifs with h1
    · intro hpos
      simp only [received_append, runStep_received, List.singleton_append]
      rw [ih _ _ hpos]
    · intro hpos
      exact absurd hpos h1

/-- The counter of the run phase is the number of its launches less the number
of terminal messages it received. -/
theorem runPhase_running_eq (d : OsshDisaptcher) (ch : Chan) :
    (runPhase d ch).running =
      (launched (runPhase d ch).trace).length - terminals (received (runPhase d ch).trace) := by
  have h2 := runLoop_running_eq d ch.closed ch.msgs (initialFill d d.Hosts 0 0).hostIdx
    (initialFill d d.Hosts 0 0).running
  have h3 := initialFill_running_eq d d.Hosts 0 0
  have h4 := initialFill_received d d.Hosts 0 0
  unfold runPhase
  simp only [received_append, launched_append, h4.1, List.nil_append, List.length_append,
    Nat.cast_add]
  rw [h2, h3]; ring

/-- A run phase on a channel that delivers a terminal message for every worker
launched returns `nil` with the counter at zero. -/
theorem runPhase_returns (d : OsshDisaptcher) (ch : Chan)
    (h : (launched (runPhase d ch).trace).length ≤ terminals ch.msgs) :
    (runPhase d ch).outcome = Outcome.returned none ∧ (runPhase d ch).running = 0 := by
  have h0 := initialFill_running_ge d d.Hosts 0 0
  have hb := (runLoop_running_bounds d ch.closed ch.msgs (initialFill d d.Hosts 0 0).running
    (initialFill d d.Hosts 0 0).hostIdx (initialFill d d.Hosts 0 0).running h0 (le_refl _)).1.1
  have hrec := runLoop_running_pos_received d ch.closed ch.msgs
    (initialFill d d.Hosts 0 0).hostIdx (initialFill d d.Hosts 0 0).running
  have heq := runPhase_running_eq d ch
  have h4 := initialFill_received d d.Hosts 0 0
  have hz : (runPhase d ch).running = 0 := by
    by_contra hne
    have hpos : 0 < (runPhase d ch).running := by
      have : 0 ≤ (runPhase d ch).running := hb
      omega
    have hr : received (runPhase d ch).trace = ch.msgs := by
      have := hrec hpos
      unfold runPhase
      simp only [received_append, h4.1, List.nil_append]
      exact this
    rw [hr] at heq
    omega
  refine ⟨?_, hz⟩
  rcases runPhase_outcome d ch with ho | ⟨_, _, hpos⟩
  · exact ho
  · omega

/-- A run phase on a channel with a terminal message for every worker of a
complete run returns `nil` with the counter at zero. -/
theorem runPhase_returns_of_sessions (d : OsshDisaptcher) (ch : Chan)
    (h : sessions d ≤ terminals ch.msgs) :
    (runPhase d ch).outcome = Outcome.returned none ∧ (runPhase d ch).running = 0 := by
  have h0 := initialFill_running_ge d d.Hosts 0 0
  have h1 := initialFill_running_eq d d.Hosts 0 0
  unfold sessions at h
  unfold runPhase
  apply runLoop_completes d ch.closed ch.msgs _ _ h0
  rw [h1]
  omega

/-- The run phase launches no more workers than a complete run does. -/
theorem runPhase_launched_le_sessions (d : OsshDisaptcher) (ch : Chan) :
    (launched (runPhase d ch).trace).length ≤ sessions d := by
  have h1 := initialFill_hostIdx_le d d.Hosts 0 0
  have hl := runLoop_launched d ch.closed ch.msgs (initialFill d d.Hosts 0 0).hostIdx
    (initialFill d d.Hosts 0 0).running (by omega)
  have hb := (runLoop_hostIdx_bounds d ch.closed ch.msgs (initialFill d d.Hosts 0 0).hostIdx
    (initialFill d d.Hosts 0 0).running (by omega)).1
  unfold sessions runPhase
  simp only [launched_append, hl, List.length_append, List.length_range']
  omega

/-- When the preconnect phase is passed, or there is none, `Run` is the run
phase on the messages left for it. -/
theorem Run_enters (d : OsshDisaptcher) (ch : Chan)
    (henter : d.Preconnect = false ∨ (d.Hosts.length ≤ ch.msgs.length ∧
      (d.IgnoreFailures = true ∨ ∀ m ∈ ch.msgs.take d.Hosts.length, m.hasError = false))) :
    (d.Run ch).outcome = (runPhase d ⟨runMessages d ch, ch.closed⟩).outcome ∧
    (d.Run ch).hostIdx = (runPhase d ⟨runMessages d ch, ch.closed⟩).hostIdx ∧
    (d.Run ch).running = (runPhase d ⟨runMessages d ch, ch.closed⟩).running ∧
    (d.Run ch).history = (runPhase d ⟨runMessages d ch, ch.closed⟩).history ∧
    launched (d.Run ch).trace = launched (runPhase d ⟨runMessages d ch, ch.closed⟩).trace ∧
    printed (d.Run ch).trace = printed (preconnectPhase d ch).acts ++
      printed (runPhase d ⟨runMessages d ch, ch.closed⟩).trace := by
  have hrest : (preconnectPhase d ch).rest = runMessages d ch := by
    cases hp : d.Preconnect with
    | true => rw [(preconnectPhase_of_preconnect d ch hp).2.2.1]; simp [runMessages, hp]
    | false => simp [preconnectPhase, runMessages, hp]
  rcases Run_cases d ch with ⟨hp, _, _, _, _, h⟩ | ⟨_, _, ho, hh, hr, hhi, ht⟩
  · exfalso
    obtain ⟨he, hfc, _⟩ := preconnectPhase_of_preconnect d ch hp
    rcases henter with hpf | ⟨hlen, hpass⟩
    · rw [hp] at hpf; cases hpf
    · simp only [hlen, if_true] at he
      rcases h with ⟨h, _⟩ | ⟨h, _⟩ | ⟨_, hig, hpos, _⟩
      · rw [he] at h; cases h
      · rw [he] at h; cases h
      · rcases hpass with hi | hall
        · rw [hig] at hi; cases hi
        · have hz : (ch.msgs.take d.Hosts.length).countP OsshMessage.hasError = 0 := by
            rw [List.countP_eq_zero]
            intro m hm
            simp [hall m hm]
          rw [hfc, hz] at hpos
          simp at hpos
  · rw [hrest] at ho hh hr hhi ht
    refine ⟨ho, hh, hr, hhi, ?_, ?_⟩
    · rw [ht, launched_append, preconnectPhase_launched, List.nil_append]
    · rw [ht, printed_append]

/-! ## The claims -/

/-- C1: for every host list, every `Par ≥ 1` and every channel, the counter
`running` of `Run` is at most `Par` (and at least zero) after the initial fill
and after every message the run loop receives, and so at the end; and when
`Preconnect` is unset it is the number of run-phase workers launched less the
number of terminal messages received. -/
theorem running_le_Par (d : OsshDisaptcher) (ch : Chan) (hPar : 1 ≤ d.Par) :
    (∀ s ∈ (d.Run ch).history, 0 ≤ s.running ∧ s.running ≤ d.Par) ∧
    (0 ≤ (d.Run ch).running ∧ (d.Run ch).running ≤ d.Par) ∧
    (d.Preconnect = false →
      (d.Run ch).history.length = 1 + (received (d.Run ch).trace).length ∧
      (d.Run ch).running =
        (launched (d.Run ch).trace).length - terminals (received (d.Run ch).trace)) := by
  have hb := fun c => runPhase_running_bounds d c (by omega : 0 ≤ d.Par)
  refine ⟨?_, ?_, ?_⟩
  · rcases Run_cases d ch with ⟨_, h, _⟩ | ⟨_, _, _, _, _, h, _⟩
    · rw [h]; simp
    · rw [h]; exact (hb _).2
  · rcases Run_cases d ch with ⟨_, _, _, h, _⟩ | ⟨_, _, _, _, h, _⟩
    · rw [h]; omega
    · rw [h]; exact (hb _).1
  · intro hp
    rw [Run_of_not_preconnect d ch hp]
    have h1 := runLoop_received_printed d ch.closed ch.msgs (initialFill d d.Hosts 0 0).hostIdx
      (initialFill d d.Hosts 0 0).running
    have h2 := runLoop_running_eq d ch.closed ch.msgs (initialFill d d.Hosts 0 0).hostIdx
      (initialFill d d.Hosts 0 0).running
    have h3 := initialFill_running_eq d d.Hosts 0 0
    have h4 := initialFill_received d d.Hosts 0 0
    unfold runPhase
    simp only [received_append, launched_append, h4.1, List.nil_append, List.length_cons,
      List.length_append, Nat.cast_add]
    constructor
    · omega
    · rw [h2, h3]; ring

/-- C1 at three hosts, two at a time: after the second message the cursor is
at 3 with two workers outstanding, within the limit. -/
theorem running_le_Par_witness :
    (1 : Int) ≤ threeHosts.Par ∧
    (threeHosts.Run threeHostsChan).history = [⟨2, 2⟩, ⟨3, 2⟩, ⟨3, 2⟩, ⟨3, 1⟩, ⟨3, 0⟩] ∧
    (0 ≤ (⟨3, 2⟩ : Slot).running ∧ (⟨3, 2⟩ : Slot).running ≤ threeHosts.Par) :=
  ⟨by decide, by decide, (running_le_Par threeHosts threeHostsChan (by decide)).1 ⟨3, 2⟩ (by decide)⟩

/-- C5: for every host list, `Par` and channel, the run-phase workers are
launched in strictly ascending host index, in the initial fill and in every
refill, so no index is launched twice; within the run phase the cursor
`hostIdx` never decreases (the history starts where the fill, which walks up
from zero, stopped); and every index launched lies behind the final cursor,
which stays within the host list. -/
theorem launch_order_ascending (d : OsshDisaptcher) (ch : Chan) :
    List.Pairwise (· < ·) (launched (d.Run ch).trace) ∧
    (launched (d.Run ch).trace).Nodup ∧
    List.Chain' (fun a b => a.hostIdx ≤ b.hostIdx) (d.Run ch).history ∧
    (∀ i ∈ launched (d.Run ch).trace, i < (d.Run ch).hostIdx) ∧
    (d.Run ch).hostIdx ≤ d.Hosts.length := by
  have hpw : List.Pairwise (· < ·) (launched (d.Run ch).trace) := by
    rcases Run_cases d ch with ⟨_, _, h, _⟩ | ⟨_, _, _, _, _, _, h⟩
    · rw [h]; exact List.Pairwise.nil
    · rw [h, launched_append, preconnectPhase_launched, List.nil_append]
      exact runPhase_launched_pairwise d _
  refine ⟨hpw, ?_, ?_, ?_, ?_⟩
  · exact hpw.imp (fun h => Nat.ne_of_lt h)
  · rcases Run_cases d ch with ⟨_, h, _⟩ | ⟨_, _, _, _, _, h, _⟩
    · rw [h]; exact List.chain'_nil
    · rw [h]
      have h1 := initialFill_hostIdx_le d d.Hosts 0 0
      have := (runLoop_hostIdx_bounds d ch.closed (preconnectPhase d ch).rest
        (initialFill d d.Hosts 0 0).hostIdx (initialFill d d.Hosts 0 0).running (by omega)).2
      exact this
  · rcases Run_cases d ch with ⟨_, _, h, _⟩ | ⟨_, _, _, hh, _, _, h⟩
    · rw [h]; simp
    · rw [h, hh, launched_append, preconnectPhase_launched, List.nil_append]
      intro i hi
      have hb := runPhase_hostIdx_bounds d ⟨(preconnectPhase d ch).rest, ch.closed⟩
      rcases (runPhase_mem_launched d _ i).1 hi with h | h <;> omega
  · rcases Run_cases d ch with ⟨_, _, _, _, hx, _⟩ | ⟨_, _, _, hh, _⟩
    · rw [hx]; exact preconnectPhase_hostIdx d ch
    · rw [hh]; exact (runPhase_hostIdx_bounds d _).2

/-- C8: once `Run` has entered the run phase (`Preconnect` unset, or the
preconnect loop received its `len(Hosts)` messages and the failure check let
the run through), it returns `nil`, however many of the run-phase messages
carry `ERROR`: it returns `nil` with the counter at zero whenever the channel
delivers a terminal message for every worker launched, which is so as soon as
it delivers one for every worker of a complete run (`sessions`, never fewer
than the workers launched); otherwise it returns `nil` on a closed channel or
waits on an open one with workers outstanding, and never returns an error;
every received message with `ERROR` set is printed, as is every message with
neither `ERROR` nor `CLOSE` set.  An error returned by `Run` was returned
before the run phase. -/
theorem run_phase_returns_nil (d : OsshDisaptcher) (ch : Chan)
    (henter : d.Preconnect = false ∨ (d.Hosts.length ≤ ch.msgs.length ∧
      (d.IgnoreFailures = true ∨ ∀ m ∈ ch.msgs.take d.Hosts.length, m.hasError = false))) :
    ((launched (d.Run ch).trace).length ≤ terminals (runMessages d ch) →
      (d.Run ch).outcome = Outcome.returned none ∧ (d.Run ch).running = 0) ∧
    (sessions d ≤ terminals (runMessages d ch) →
      (d.Run ch).outcome = Outcome.returned none ∧ (d.Run ch).running = 0) ∧
    (launched (d.Run ch).trace).length ≤ sessions d ∧
    ((d.Run ch).outcome = Outcome.returned none ∨
      ((d.Run ch).outcome = Outcome.blocked ∧ ch.closed = false ∧ 0 < (d.Run ch).running ∧
        terminals (runMessages d ch) < (launched (d.Run ch).trace).length)) ∧
    (d.Run ch).history ≠ [] ∧
    printed (d.Run ch).trace =
      (if d.Preconnect then
        (ch.msgs.take d.Hosts.length).filter (fun m => m.hasError || m.hasVerbose) else []) ++
      (received (runPhase d ⟨runMessages d ch, ch.closed⟩).trace).filter
        (fun m => m.hasError || !m.hasClose) ∧
    received (runPhase d ⟨runMessages d ch, ch.closed⟩).trace <+: runMessages d ch ∧
    (∀ c e, (d.Run c).outcome = Outcome.returned (some e) → (d.Run c).history = []) := by
  obtain ⟨ho, _, hr, hhi, hl, hpr⟩ := Run_enters d ch henter
  have hout := runPhase_outcome d ⟨runMessages d ch, ch.closed⟩
  have hrun1 : (launched (d.Run ch).trace).length ≤ terminals (runMessages d ch) →
      (d.Run ch).outcome = Outcome.returned none ∧ (d.Run ch).running = 0 := by
    intro ht
    rw [ho, hr]
    rw [hl] at ht
    exact runPhase_returns d ⟨runMessages d ch, ch.closed⟩ ht
  refine ⟨hrun1, ?_, ?_, ?_, ?_, ?_, ?_, ?_⟩
  · intro ht
    rw [ho, hr]
    exact runPhase_returns_of_sessions d ⟨runMessages d ch, ch.closed⟩ ht
  · rw [hl]; exact runPhase_launched_le_sessions d _
  · rcases hout with h | ⟨h, hc, hpos⟩
    · left; rw [ho]; exact h
    · right
      refine ⟨by rw [ho]; exact h, hc, by rw [hr]; exact hpos, ?_⟩
      by_contra hlt
      have := (hrun1 (by omega)).1
      rw [ho, h] at this
      cases this
  · rw [hhi]; simp [runPhase]
  · rw [hpr]
    have h1 := runLoop_received_printed d ch.closed (runMessages d ch)
      (initialFill d d.Hosts 0 0).hostIdx (initialFill d d.Hosts 0 0).running
    have h4 := initialFill_received d d.Hosts 0 0
    have hrp : printed (runPhase d ⟨runMessages d ch, ch.closed⟩).trace =
        (received (runPhase d ⟨runMessages d ch, ch.closed⟩).trace).filter
          (fun m => m.hasError || !m.hasClose) := by
      unfold runPhase
      simp only [received_append, printed_append, h4.1, h4.2, List.nil_append]
      exact h1.2.1
    rw [hrp]
    cases hp : d.Preconnect with
    | true => rw [(preconnectPhase_of_preconnect d ch hp).2.2.2.2]; simp
    | false => simp [preconnectPhase, hp, printed]
  · have h1 := runLoop_received_printed d ch.closed (runMessages d ch)
      (initialFill d d.Hosts 0 0).hostIdx (initialFill d d.Hosts 0 0).running
    have h4 := initialFill_received d d.Hosts 0 0
    unfold runPhase
    simp only [received_append, h4.1, List.nil_append]
    exact h1.1
  · intro c e he
    rcases Run_cases d c with ⟨_, h, _⟩ | ⟨_, _, ho2, _⟩
    · exact h
    · rw [ho2] at he
      rcases runPhase_outcome d ⟨(preconnectPhase d c).rest, c.closed⟩ with h | ⟨h, _⟩
      · rw [h] at he; cases he
      · rw [h] at he; cases he

/-- C8 on two runs.  Hosts A and B with B's probe failed and failures ignored:
the preconnect is passed, the fill skips B, the one worker launched delivers
its one terminal message (fewer than there are hosts) and `Run` returns `nil`.
Three hosts without preconnect: host B fails in the run phase, the error is
printed and `Run` returns `nil`. -/
theorem run_phase_returns_nil_witness :
    (ignoring.Preconnect = true ∧ ignoring.Hosts.length ≤ ignoringChan.msgs.length ∧
      (launched (ignoring.Run ignoringChan).trace).length = 1 ∧
      terminals (runMessages ignoring ignoringChan) = 1 ∧
      ((ignoring.Run ignoringChan).outcome = Outcome.returned none ∧
        (ignoring.Run ignoringChan).running = 0)) ∧
    (threeHosts.Preconnect = false ∧ sessions threeHosts = 3 ∧
      terminals (runMessages threeHosts threeHostsChan) = 3 ∧
      ((threeHosts.Run threeHostsChan).outcome = Outcome.returned none ∧
        (threeHosts.Run threeHostsChan).running = 0) ∧
      printed (threeHosts.Run threeHostsChan).trace = [mErr 1, mOut 0]) :=
  ⟨⟨rfl, by decide, by decide, by decide,
      (run_phase_returns_nil ignoring ignoringChan (Or.inr ⟨by decide, Or.inl rfl⟩)).1
        (by decide)⟩,
    ⟨rfl, by decide, by decide,
      (run_phase_returns_nil threeHosts threeHostsChan (Or.inl rfl)).2.1 (by decide),
      by decide⟩⟩

/-- C10: for `Par ≥ 1`, when `Run` returns `nil` with the counter at zero, the
cursor is at the end of the host list and every host whose recorded-error slot
is unset has been launched in run mode exactly once. -/
theorem run_complete_all_launched (d : OsshDisaptcher) (ch : Chan) (hPar : 1 ≤ d.Par)
    (hret : (d.Run ch).outcome = Outcome.returned none) (hzero : (d.Run ch).running = 0) :
    (d.Run ch).hostIdx = d.Hosts.length ∧
    ∀ i h, d.Hosts[i]? = some h → h.err = none → (launched (d.Run ch).trace).count i = 1 := by
  rcases Run_cases d ch with ⟨_, _, _, _, _, h⟩ | ⟨_, _, _, hh, hr, _, ht⟩
  · exfalso
    rcases h with ⟨_, h⟩ | ⟨_, h⟩ | ⟨_, _, _, h⟩ <;> rw [h] at hret <;> cases hret
  · rw [hr] at hzero
    have hN := runPhase_done_hostIdx d _ hPar hzero
    refine ⟨by rw [hh]; exact hN, ?_⟩
    intro i h hi herr
    have hpw := runPhase_launched_pairwise d ⟨(preconnectPhase d ch).rest, ch.closed⟩
    rw [ht, launched_append, preconnectPhase_launched, List.nil_append]
    apply List.count_eq_one_of_mem (hpw.imp (fun h => Nat.ne_of_lt h))
    rw [runPhase_mem_launched, hN]
    have hlt : i < d.Hosts.length := by
      rcases Nat.lt_or_ge i d.Hosts.length with h' | h'
      · exact h'
      · rw [List.getElem?_eq_none h'] at hi; cases hi
    by_cases hc : i < (initialFill d d.Hosts 0 0).hostIdx
    · left; exact ⟨hc, h, hi, herr⟩
    · right; omega

/-- C10 at three hosts: the run ends with the cursor at 3 and host C, index 2,
launched once. -/
theorem run_complete_all_launched_witness :
    (1 : Int) ≤ threeHosts.Par ∧
    (threeHosts.Run threeHostsChan).outcome = Outcome.returned none ∧
    (threeHosts.Run threeHostsChan).running = 0 ∧
    (threeHosts.Run threeHostsChan).hostIdx = threeHosts.Hosts.length ∧
    (launched (threeHosts.Run threeHostsChan).trace).count 2 = 1 :=
  ⟨by decide, by decide, by decide,
    (run_complete_all_launched threeHosts threeHostsChan (by decide) (by decide) (by decide)).1,
    (run_complete_all_launched threeHosts threeHostsChan (by decide) (by decide) (by decide)).2
      2 hC (by decide) (by decide)⟩

/-- C9: for `Par ≥ 1`, when `Run` returns `nil` with the counter at zero (the
channel delivered a terminal message for every worker launched), a host whose
recorded-error slot is set is launched in the run phase if and only if its
index is at or beyond the cursor position at which the initial fill stopped:
the fill skips it, a refill launches it without looking at the slot.  This
holds for every run that reaches the run phase, so with `Preconnect` and
`IgnoreFailures` set. -/
theorem failed_host_launched_iff (d : OsshDisaptcher) (ch : Chan) (hPar : 1 ≤ d.Par)
    (hret : (d.Run ch).outcome = Outcome.returned none) (hzero : (d.Run ch).running = 0)
    (i : Nat) (h : OsshHost) (hi : d.Hosts[i]? = some h) (herr : h.err ≠ none) :
    i ∈ launched (d.Run ch).trace ↔ (initialFill d d.Hosts 0 0).hostIdx ≤ i := by
  rcases Run_cases d ch with ⟨_, _, _, _, _, h⟩ | ⟨_, _, _, hh, hr, _, ht⟩
  · exfalso
    rcases h with ⟨_, h⟩ | ⟨_, h⟩ | ⟨_, _, _, h⟩ <;> rw [h] at hret <;> cases hret
  · rw [hr] at hzero
    have hN := runPhase_done_hostIdx d _ hPar hzero
    have hlt : i < d.Hosts.length := by
      rcases Nat.lt_or_ge i d.Hosts.length with h' | h'
      · exact h'
      · rw [List.getElem?_eq_none h'] at hi; cases hi
    rw [ht, launched_append, preconnectPhase_launched, List.nil_append, runPhase_mem_launched, hN]
    constructor
    · rintro (⟨_, h', hi', he'⟩ | ⟨hge, _⟩)
      · rw [hi] at hi'
        cases hi'
        exact absurd he' herr
      · exact hge
    · intro hge
      right; exact ⟨hge, hlt⟩

/-- C9 on hosts A and B with B's slot set, preconnect with failures ignored:
two at a time the fill walks over both and B (index 1) is not launched; one at
a time the fill stops at index 1 and the refill launches B. -/
theorem failed_host_launched_iff_witness :
    (launched (ignoring.Run ignoringChan).trace = [0] ∧
      (initialFill ignoring ignoring.Hosts 0 0).hostIdx = 2 ∧
      (1 ∈ launched (ignoring.Run ignoringChan).trace ↔
        (initialFill ignoring ignoring.Hosts 0 0).hostIdx ≤ 1)) ∧
    (launched (ignoringSerial.Run ignoringSerialChan).trace = [0, 1] ∧
      (initialFill ignoringSerial ignoringSerial.Hosts 0 0).hostIdx = 1 ∧
      (1 ∈ launched (ignoringSerial.Run ignoringSerialChan).trace ↔
        (initialFill ignoringSerial ignoringSerial.Hosts 0 0).hostIdx ≤ 1)) :=
  ⟨⟨by decide, by decide,
      failed_host_launched_iff ignoring ignoringChan (by decide) (by decide) (by decide)
        1 hBfail (by decide) (by decide)⟩,
    ⟨by decide, by decide,
      failed_host_launched_iff ignoringSerial ignoringSerialChan (by decide) (by decide)
        (by decide) 1 hBfail (by decide) (by decide)⟩⟩

/-- C4: with `Preconnect` set and `IgnoreFailures` unset, if one of the
messages counted by the preconnect loop has `ERROR` set and the loop comes to
an end (the channel delivers `len(Hosts)` messages, or is closed), `Run`
returns a non-nil error and launches no run-phase worker; with all
`len(Hosts)` messages delivered the error names the number of failures. -/
theorem preconnect_failure_aborts (d : OsshDisaptcher) (ch : Chan)
    (hPre : d.Preconnect = true) (hIgn : d.IgnoreFailures = false)
    (hdel : d.Hosts.length ≤ ch.msgs.length ∨ ch.closed = true)
    (herr : ∃ m ∈ ch.msgs.take d.Hosts.length, m.hasError = true) :
    (∃ e, (d.Run ch).outcome = Outcome.returned (some e)) ∧
    launched (d.Run ch).trace = [] ∧ (d.Run ch).history = [] ∧
    (d.Hosts.length ≤ ch.msgs.length →
      (d.Run ch).outcome = Outcome.returned (some ("failed to connect to " ++
        toString (((ch.msgs.take d.Hosts.length).countP OsshMessage.hasError : Nat) : Int) ++
        " hosts, exiting"))) := by
  obtain ⟨he, hfc, _⟩ := preconnectPhase_of_preconnect d ch hPre
  have hpos : 0 < (ch.msgs.take d.Hosts.length).countP OsshMessage.hasError := by
    obtain ⟨m, hm, hme⟩ := herr
    exact List.countP_pos_iff.2 ⟨m, hm, hme⟩
  rcases Run_cases d ch with ⟨_, hh, hl, _, _, h⟩ | ⟨_, h, _⟩
  · refine ⟨?_, hl, hh, ?_⟩
    · rcases h with ⟨_, h⟩ | ⟨h, _⟩ | ⟨_, _, _, h⟩
      · exact ⟨_, h⟩
      · exfalso
        rw [he] at h
        rcases hdel with hd | hd
        · simp [hd] at h
        · simp only [hd, if_true] at h
          split_ifs at h
      · exact ⟨_, h⟩
    · intro hlen
      rcases h with ⟨h, _⟩ | ⟨h, _⟩ | ⟨_, _, _, h⟩
      · rw [he] at h; simp [hlen] at h
      · rw [he] at h; simp [hlen] at h
      · rw [h, hfc]
  · exfalso
    rcases h with h | h
    · rw [hIgn] at h; cases h
    · rw [hfc] at h; omega

/-- C4 on hosts A and B: B's probe fails, failures are not ignored, `Run`
returns the error and launches nothing. -/
theorem preconnect_failure_aborts_witness :
    strict.Preconnect = true ∧ strict.IgnoreFailures = false ∧
    (∃ e, (strict.Run strictChan).outcome = Outcome.returned (some e)) ∧
    launched (strict.Run strictChan).trace = [] ∧
    (strict.Run strictChan).outcome =
      Outcome.returned (some "failed to connect to 1 hosts, exiting") :=
  ⟨rfl, rfl,
    (preconnect_failure_aborts strict strictChan rfl rfl (Or.inl (by decide))
      ⟨mErr 1, by decide, by decide⟩).1,
    (preconnect_failure_aborts strict strictChan rfl rfl (Or.inl (by decide))
      ⟨mErr 1, by decide, by decide⟩).2.1,
    by decide⟩

/-- C6, as the code has it: with the channel closed before the preconnect loop
has received `len(Hosts)` messages, `Run` returns the error "channel got closed
unexpectedly, exiting" and launches no run-phase worker; with the channel
closed in the run phase, the run loop is left and `Run` returns `nil`. -/
theorem channel_closed_outcome (d : OsshDisaptcher) (ch : Chan) (hclosed : ch.closed = true) :
    (d.Preconnect = true → ch.msgs.length < d.Hosts.length →
      (d.Run ch).outcome = Outcome.returned (some "channel got closed unexpectedly, exiting") ∧
      launched (d.Run ch).trace = [] ∧ (d.Run ch).history = []) ∧
    ((d.Run ch).history ≠ [] → (d.Run ch).outcome = Outcome.returned none) := by
  constructor
  · intro hPre hlen
    obtain ⟨he, _⟩ := preconnectPhase_of_preconnect d ch hPre
    have hnot : ¬ d.Hosts.length ≤ ch.msgs.length := by omega
    simp only [hnot, if_false, hclosed, if_true] at he
    rcases Run_cases d ch with ⟨_, hh, hl, _, _, h⟩ | ⟨h, _⟩
    · refine ⟨?_, hl, hh⟩
      rcases h with ⟨_, h⟩ | ⟨h, _⟩ | ⟨h, _⟩
      · exact h
      · rw [he] at h; cases h
      · rw [he] at h; cases h
    · rw [he] at h; cases h
  · intro hne
    rcases Run_cases d ch with ⟨_, hh, _⟩ | ⟨_, _, ho, _⟩
    · exact absurd hh hne
    · rw [ho]
      rcases runPhase_outcome d ⟨(preconnectPhase d ch).rest, ch.closed⟩ with h | ⟨_, h, _⟩
      · exact h
      · simp only at h
        rw [hclosed] at h; cases h

/-- C6 as amended, on hosts A and B with the channel closed after one probe
message, and on one host without preconnect with the channel closed from the
start. -/
theorem channel_closed_outcome_witness :
    ((strict.Run cutChan).outcome =
        Outcome.returned (some "channel got closed unexpectedly, exiting") ∧
      launched (strict.Run cutChan).trace = [] ∧ (strict.Run cutChan).history = []) ∧
    (oneHost.Run closedChan).outcome = Outcome.returned none :=
  ⟨(channel_closed_outcome strict cutChan rfl).1 rfl (by decide),
    (channel_closed_outcome oneHost closedChan rfl).2 (by decide)⟩

/-- C6 fails in the run phase: one host, no preconnect, the channel closed
while the worker is outstanding (`running` is 1): `Run` returns `nil`. -/
theorem channel_closed_run_phase_counterexample :
    closedChan.closed = true ∧ launched (oneHost.Run closedChan).trace = [0] ∧
    0 < (oneHost.Run closedChan).running ∧
    (oneHost.Run closedChan).outcome = Outcome.returned none := by
  decide

/-- C2, as the code has it: with `Preconnect` set, if a run-phase worker is
launched at all, then what `Run` received before the first launch is exactly
the first `len(Hosts)` messages of the channel, each counted whatever its
kind; of these it printed the ones with `ERROR` or `VERBOSE` set. -/
theorem preconnect_counts_every_message (d : OsshDisaptcher) (ch : Chan)
    (hPre : d.Preconnect = true) (hrun : launched (d.Run ch).trace ≠ []) :
    received (beforeFirstRun (d.Run ch).trace) = ch.msgs.take d.Hosts.length ∧
    (ch.msgs.take d.Hosts.length).length = d.Hosts.length ∧
    printed (beforeFirstRun (d.Run ch).trace) =
      (ch.msgs.take d.Hosts.length).filter (fun m => m.hasError || m.hasVerbose) := by
  obtain ⟨he, _, _, hrec, hpr⟩ := preconnectPhase_of_preconnect d ch hPre
  rcases Run_cases d ch with ⟨_, _, hl, _⟩ | ⟨hdone, _, _, _, _, _, ht⟩
  · exact absurd hl hrun
  · have hlen : d.Hosts.length ≤ ch.msgs.length := by
      by_contra hc
      rw [he] at hdone
      simp only [hc, if_false] at hdone
      split_ifs at hdone
    have hpl := preconnectPhase_launched d ch
    have hbefore : beforeFirstRun (d.Run ch).trace = (preconnectPhase d ch).acts := by
      rw [ht]
      rw [ht, launched_append, hpl, List.nil_append] at hrun
      unfold runPhase at hrun ⊢
      simp only at hrun ⊢
      rcases initialFill_acts_head d d.Hosts 0 0 with h0 | ⟨i, c, b, h0⟩
      · exfalso
        have hr := initialFill_running_eq d d.Hosts 0 0
        rw [h0] at hr
        simp only [launched, List.length_nil, Nat.cast_zero, add_zero] at hr
        rw [h0, hr, runLoop_zero] at hrun
        exact hrun rfl
      · rw [h0, List.cons_append]
        exact beforeFirstRun_append _ i c _ hpl
    rw [hbefore, hrec, hpr]
    exact ⟨rfl, List.length_take_of_le hlen, rfl⟩

/-- C2 as amended, on hosts A and B with failures ignored: the two probe
messages are received before host A is launched. -/
theorem preconnect_counts_every_message_witness :
    ignoring.Preconnect = true ∧ launched (ignoring.Run ignoringChan).trace ≠ [] ∧
    received (beforeFirstRun (ignoring.Run ignoringChan).trace) =
      ignoringChan.msgs.take ignoring.Hosts.length :=
  ⟨rfl, by decide, (preconnect_counts_every_message ignoring ignoringChan rfl (by decide)).1⟩

/-- C2 fails: one host with `Preconnect` set and a single `VERBOSE` message on
the channel.  The message is counted as the one event of the preconnect loop,
and host 0 is launched in run mode with no terminal message received. -/
theorem preconnect_verbose_counterexample :
    oneHostPre.Preconnect = true ∧ oneHostPre.Hosts.length = 1 ∧
    (oneHostPre.Run verboseChan).trace =
      [Act.connect 0, Act.recv (mVerb 0), Act.print (mVerb 0), Act.run 0 "uptime"] ∧
    terminals (received (beforeFirstRun (oneHostPre.Run verboseChan).trace)) = 0 := by
  decide

/-- C7, as the code has it: `Run` does not validate.  With no host it returns
`nil` having done nothing; with `Par < 1` and `Preconnect` unset it returns
`nil` having done nothing; and the only errors it ever returns are the two of
the preconnect phase, so only with `Preconnect` set and a non-empty host
list. -/
theorem Run_does_not_validate (d : OsshDisaptcher) (ch : Chan) :
    (d.Hosts = [] → (d.Run ch).outcome = Outcome.returned none ∧ (d.Run ch).trace = []) ∧
    (d.Par < 1 → d.Preconnect = false →
      (d.Run ch).outcome = Outcome.returned none ∧ (d.Run ch).trace = []) ∧
    (∀ e, (d.Run ch).outcome = Outcome.returned (some e) →
      d.Preconnect = true ∧ d.Hosts ≠ [] ∧
      (e = "channel got closed unexpectedly, exiting" ∨
        ∃ n : Int, 0 < n ∧ e = "failed to connect to " ++ toString n ++ " hosts, exiting")) := by
  refine ⟨Run_of_no_hosts d ch, ?_, ?_⟩
  · intro hPar hPre
    rw [Run_of_not_preconnect d ch hPre]
    have hf := initialFill_of_Par_lt_one d d.Hosts 0 0 hPar (le_refl 0)
    simp only [runPhase, hf, runLoop_zero, runLoop_zero_outcome]
    simp
  · intro e he
    have hne : d.Hosts ≠ [] := by
      intro h
      rw [(Run_of_no_hosts d ch h).1] at he
      cases he
    rcases Run_cases d ch with ⟨hp, _, _, _, _, h⟩ | ⟨_, _, ho, _⟩
    · refine ⟨hp, hne, ?_⟩
      rcases h with ⟨_, h⟩ | ⟨_, h⟩ | ⟨_, _, hpos, h⟩
      · rw [h] at he
        left
        simpa using he.symm
      · rw [h] at he; cases he
      · rw [h] at he
        right
        refine ⟨_, hpos, ?_⟩
        simpa using he.symm
    · exfalso
      rw [ho] at he
      rcases runPhase_outcome d ⟨(preconnectPhase d ch).rest, ch.closed⟩ with h | ⟨h, _⟩
      · rw [h] at he; cases he
      · rw [h] at he; cases he

/-- C7 as amended, on a dispatcher with no host, no command and `Par = 0`, and
on one with `Par = 0` only. -/
theorem Run_does_not_validate_witness :
    ((invalidAll.Run silentChan).outcome = Outcome.returned none ∧
      (invalidAll.Run silentChan).trace = []) ∧
    ((invalidPar.Run silentChan).outcome = Outcome.returned none ∧
      (invalidPar.Run silentChan).trace = []) :=
  ⟨(Run_does_not_validate invalidAll silentChan).1 rfl,
    (Run_does_not_validate invalidPar silentChan).2.1 (by decide) rfl⟩

/-- C7 fails: `Validate` rejects each of the three dispatchers and `Run`,
called on them, returns `nil`; with the empty command it launches the worker
with that command. -/
theorem Run_invalid_counterexample :
    (invalidAll.Validate =
        some "parallelism should be > 0\nno command is specified\nhost list is empty" ∧
      (invalidAll.Run silentChan).outcome = Outcome.returned none) ∧
    (invalidPar.Validate = some "parallelism should be > 0" ∧
      (invalidPar.Run silentChan).outcome = Outcome.returned none) ∧
    (invalidCommand.Validate = some "no command is specified" ∧
      (invalidCommand.Run ⟨[mClose 0], false⟩).outcome = Outcome.returned none ∧
      (invalidCommand.Run ⟨[mClose 0], false⟩).trace = [Act.run 0 "", Act.recv (mClose 0)]) := by
  decide

/-- C3: `Validate` returns an error exactly when `Par < 1`, or `Command` is
empty, or `Hosts` is empty, and the error text is then the messages of the
violated conditions, and of no other, joined by newlines in the order
parallelism, command, host list; with all three violated it is the three
messages on three lines. -/
theorem Validate_reports_violations (d : OsshDisaptcher) :
    (d.Validate.isSome = true ↔ (d.Par < 1 ∨ d.Command = "" ∨ d.Hosts = [])) ∧
    d.Validate =
      (if violations d = [] then none else some (String.intercalate "\n" (violations d))) ∧
    ("parallelism should be > 0" ∈ violations d ↔ d.Par < 1) ∧
    ("no command is specified" ∈ violations d ↔ d.Command = "") ∧
    ("host list is empty" ∈ violations d ↔ d.Hosts = []) ∧
    (d.Par < 1 → d.Command = "" → d.Hosts = [] → d.Validate =
      some "parallelism should be > 0\nno command is specified\nhost list is empty") ∧
    (d.Par < 1 → d.Command ≠ "" → d.Hosts = [] → d.Validate =
      some "parallelism should be > 0\nhost list is empty") ∧
    (1 ≤ d.Par → d.Command = "" → d.Hosts ≠ [] → d.Validate =
      some "no command is specified") := by
  have hc : (d.Command.utf8ByteSize == 0) = decide (d.Command = "") := by
    by_cases h : d.Command = ""
    · have h0 := (utf8ByteSize_eq_zero d.Command).2 h
      rw [h0]; simp [h]
    · have : d.Command.utf8ByteSize ≠ 0 := fun h2 => h ((utf8ByteSize_eq_zero _).1 h2)
      simp [h, this]
  have hh : (d.Hosts.length == 0) = decide (d.Hosts = []) := by
    cases d.Hosts <;> simp
  have j3 : String.intercalate "\n"
      ["parallelism should be > 0", "no command is specified", "host list is empty"] =
      "parallelism should be > 0\nno command is specified\nhost list is empty" := by decide
  have j2 : String.intercalate "\n" ["parallelism should be > 0", "host list is empty"] =
      "parallelism should be > 0\nhost list is empty" := by decide
  have j1 : String.intercalate "\n" ["no command is specified"] =
      "no command is specified" := by decide
  unfold OsshDisaptcher.Validate violations joinLines
  simp only [hc, hh]
  by_cases h1 : d.Par < 1 <;> by_cases h2 : d.Command = "" <;> by_cases h3 : d.Hosts = [] <;>
    simp [h1, h2, h3, j3, j2, j1]

/-- C3 on a dispatcher with `Par = 0`, no command and no host: the error text
is the three messages on three lines. -/
theorem Validate_reports_violations_witness :
    invalidAll.Par < 1 ∧ invalidAll.Command = "" ∧ invalidAll.Hosts = [] ∧
    invalidAll.Validate =
      some "parallelism should be > 0\nno command is specified\nhost list is empty" :=
  ⟨by decide, rfl, rfl,
    (Validate_reports_violations invalidAll).2.2.2.2.2.1 (by decide) rfl rfl⟩

end Ossh
